import Mathlib

/-!
Verification development for the automancy tile-actor simulation engine.

The Rust sources are embedded shallowly:
  * `src/game/game.rs` (the coordinator actor `Game`) in namespace `GameM`;
  * `src/game/map.rs` (persistence: `Map::save` / `Map::load`) in namespace `Persist`;
  * `src/game/data/id.rs` (`Id` construction) in namespace `DataId`;
  * `src/bin/automancy/event.rs` (`on_link_tile`) in namespace `Link`.

Machine strings are modelled as `List Char`; Rust `HashMap`s as association
lists with `aGet` / `aInsert` / `aErase` mirroring `get` / `insert` /
`remove_entry`; panics (`unwrap`, `assert!`, `expect`) as `Option` failure.
Actor effects (stopping an actor, replying to a sender, telling a tile) are
made explicit as an effect list returned alongside the new state.
-/

set_option autoImplicit false

namespace Automancy

/-- Characters of a machine string; `Str` stands for Rust `String` / `&str`. -/
abbrev Str := List Char

/-- Association-list lookup: first entry with the given key, mirroring
`HashMap::get` (keys are unique in any map built by the mirrored code). -/
def aGet {K V : Type} [DecidableEq K] : List (K × V) → K → Option V
  | [], _ => none
  | p :: rest, k => if p.1 = k then some p.2 else aGet rest k

/-- Association-list key removal, mirroring `HashMap::remove` /
`HashMap::remove_entry` (drops every entry carrying the key). -/
def aErase {K V : Type} [DecidableEq K] : List (K × V) → K → List (K × V)
  | [], _ => []
  | p :: rest, k => if p.1 = k then aErase rest k else p :: aErase rest k

/-- Association-list insertion, mirroring `HashMap::insert`: the new binding
replaces any previous binding of the key. -/
def aInsert {K V : Type} [DecidableEq K] (l : List (K × V)) (k : K) (v : V) :
    List (K × V) :=
  (k, v) :: aErase l k

@[simp] theorem aGet_nil {K V : Type} [DecidableEq K] (k : K) :
    aGet ([] : List (K × V)) k = none := rfl

@[simp] theorem aGet_cons {K V : Type} [DecidableEq K] (p : K × V)
    (rest : List (K × V)) (k : K) :
    aGet (p :: rest) k = if p.1 = k then some p.2 else aGet rest k := rfl

theorem aGet_aErase_self {K V : Type} [DecidableEq K] (l : List (K × V)) (k : K) :
    aGet (aErase l k) k = none := by
  induction l with
  | nil => simp [aErase]
  | cons p rest ih =>
      by_cases h : p.1 = k <;> simp [aErase, h, ih]

theorem aGet_aErase_ne {K V : Type} [DecidableEq K] (l : List (K × V)) (k k' : K)
    (h : k ≠ k') : aGet (aErase l k) k' = aGet l k' := by
  induction l with
  | nil => simp [aErase]
  | cons p rest ih =>
      by_cases hp : p.1 = k
      · simp [aErase, hp, ih, h]
      · simp only [aErase, if_neg hp, aGet_cons, ih]

@[simp] theorem aGet_aInsert_self {K V : Type} [DecidableEq K]
    (l : List (K × V)) (k : K) (v : V) : aGet (aInsert l k v) k = some v := by
  simp [aInsert]

theorem aGet_aInsert_ne {K V : Type} [DecidableEq K] (l : List (K × V))
    (k k' : K) (v : V) (h : k ≠ k') : aGet (aInsert l k v) k' = aGet l k' := by
  simp [aInsert, h]
  exact aGet_aErase_ne l k k' h

/-- String splitting at the first `':'`, mirroring Rust
`str::split_once(':')`: `none` when no separator occurs, otherwise the part
before the first `':'` and everything after it. -/
def splitColon : Str → Option (Str × Str)
  | [] => none
  | c :: rest =>
      if c = ':' then some ([], rest)
      else (splitColon rest).map (fun p => (c :: p.1, p.2))

theorem splitColon_eq_none {s : Str} (h : ':' ∉ s) : splitColon s = none := by
  induction s with
  | nil => rfl
  | cons c rest ih =>
      simp only [List.mem_cons, not_or] at h
      have hc : ¬ c = ':' := fun hc => h.1 hc.symm
      simp [splitColon, hc, ih h.2]

theorem splitColon_isSome {s : Str} (h : ':' ∈ s) : (splitColon s).isSome := by
  induction s with
  | nil => cases h
  | cons c rest ih =>
      by_cases hc : c = ':'
      · simp [splitColon, hc]
      · rcases List.mem_cons.mp h with h1 | h2
        · exact absurd h1.symm hc
        · simpa [splitColon, hc, Option.isSome_map] using ih h2

theorem splitColon_spec {s a b : Str} (h : splitColon s = some (a, b)) :
    s = a ++ ':' :: b ∧ ':' ∉ a := by
  induction s generalizing a b with
  | nil => cases h
  | cons c rest ih =>
      by_cases hc : c = ':'
      · simp only [splitColon, if_pos hc, Option.some.injEq, Prod.mk.injEq] at h
        simp [← h.1, ← h.2, hc]
      · simp only [splitColon, if_neg hc, Option.map_eq_some'] at h
        obtain ⟨⟨a', b'⟩, hsp, heq⟩ := h
        obtain ⟨ha, hb⟩ := Prod.mk.injEq .. ▸ heq
        obtain ⟨hrest, hnot⟩ := ih hsp
        subst hb
        constructor
        · rw [← ha, hrest]; rfl
        · rw [← ha]
          simp only [List.mem_cons, not_or]
          exact ⟨fun hx => hc hx.symm, hnot⟩

namespace DataId

/-- Rust `Id` of `src/game/data/id.rs`: a namespace + name pair of strings
(field `ns` stands for the Rust field `namespace`, a reserved word here). -/
structure Id where
  ns : Str
  name : Str
deriving DecidableEq

/-- Rust `Id::new(namespace, name)` of `src/game/data/id.rs`. The two
`assert!(!….contains(':'))` panics are modelled as `none`. -/
def Id.new (ns name : Str) : Option Id :=
  if ':' ∈ ns then none
  else if ':' ∈ name then none
  else some ⟨ns, name⟩

/-- Rust `Id::from_str` of `src/game/data/id.rs`: `split_once(':')` (panic
`"invalid id"` when absent, modelled as `none`), then the same two asserts
as `Id::new`. -/
def Id.from_str (s : Str) : Option Id :=
  match splitColon s with
  | none => none
  | some (a, b) =>
      if ':' ∈ a then none
      else if ':' ∈ b then none
      else some ⟨a, b⟩

/-- Rust `Id::none()` of `src/game/data/id.rs`. -/
def Id.noneId : Option Id := Id.new "automancy".toList "none".toList

/-- Rust `Id::automancy(name)` of `src/game/data/id.rs`. -/
def Id.automancy (name : Str) : Option Id := Id.new "automancy".toList name

end DataId

namespace GameM

open DataId

/-- Axial hex coordinate. Modelled from the spec: `TileCoord` is a signed
integer axial pair (q, r); its defining module `game/tile.rs` is not under
`src/`, only its users are. -/
structure TileCoord where
  q : Int
  r : Int
deriving DecidableEq

/-- Handle of a spawned tile actor (stands for `ActorRef<TileMsg>`; concrete
actor references are process resources, compared here by identity only). -/
abbrev ActorHandle := Nat

/-- Message to a tile actor (`TileMsg` in `src/game/game.rs`): the `Tick`
variant built by `Game::inner_tick` (its `init_data` payload is an opaque
shared resource handle, omitted), and an opaque catch-all for the arbitrary
messages forwarded by `GameMsg::SendMsgToTile`. -/
inductive TileMsg where
  | tick (tick_count : Nat)
  | other (code : Nat)
deriving DecidableEq

/-- The `Map` owned by the `Game` actor of `src/game/game.rs`: a name and the
sparse `tiles` table from coordinates to `(Id, ActorRef)` pairs, the
`HashMap` modelled as an association list. -/
structure GMap where
  map_name : Str
  tiles : List (TileCoord × Id × ActorHandle)
deriving DecidableEq

/-- The coordinator state (`struct Game` of `src/game/game.rs`). The Rust
`tick_count: usize` is a `Nat` kept below `2 ^ 64` by the explicitly
wrapping increment. -/
structure Game where
  tick_count : Nat
  map : GMap
deriving DecidableEq

/-- Modulus of the 64-bit `usize` tick counter. -/
def USIZE_MOD : Nat := 2 ^ 64

/-- Reply value sent back to the `sender` of a `GameMsg`. -/
inductive Reply where
  /-- Reply to `GetTile`: `map.tiles.get(&coord).cloned()`. -/
  | tileReply (v : Option (Id × ActorHandle))
  /-- Reply to `RenderInfoRequest`. The real value is built per tile from
  render resources that are out of scope; the reply here carries the
  per-coordinate tile ids the render info is derived from. -/
  | renderInfo (instances : List (TileCoord × Id))
deriving DecidableEq

/-- Observable actor-system effect of one `Game::recv` step. -/
inductive Effect where
  /-- `ctx.system.stop(tile)` on the actor previously occupying a coord. -/
  | stopActor (h : ActorHandle)
  /-- a reply told to the message's `sender`. -/
  | reply (r : Reply)
  /-- `tile.tell(msg, …)` to the tile actor at some coordinate. -/
  | tellTile (h : ActorHandle) (m : TileMsg)
  /-- `ctx.system.actor_of_args::<Tile, _>` spawning a fresh tile actor. -/
  | spawnActor (h : ActorHandle)
  /-- the `log::warn!` fired by `Game::tick` on a slow tick. -/
  | warnSlowTick (tick_time max_allowed : Nat)
deriving DecidableEq

/-- Messages of the coordinator (`enum GameMsg` of `src/game/game.rs`);
`Tick`'s `init_data` payload is an opaque resource handle, omitted. -/
inductive GameMsg where
  | tickMsg
  | renderInfoRequest
  | placeTile (coord : TileCoord) (id : Id) (noneId : Id)
  | getTile (coord : TileCoord)
  | sendMsgToTile (coord : TileCoord) (msg : TileMsg)
deriving DecidableEq

/-- Rust `Game::inner_tick` of `src/game/game.rs`: tell `TileMsg::Tick` to
every tile actor, then `tick_count = tick_count.overflowing_add(1).0`. -/
def Game.inner_tick (g : Game) : Game × List Effect :=
  (⟨(g.tick_count + 1) % USIZE_MOD, g.map⟩,
   g.map.tiles.map (fun t => Effect.tellTile t.2.2 (TileMsg.tick g.tick_count)))

/-- Rust `Game::tick` of `src/game/game.rs`: run `inner_tick`, measure its
wall-clock duration, and `log::warn!` if it reached the allowed maximum.
`tick_time` (nanoseconds) stands for the measured `finish - start`;
`max_allowed` stands for `MAX_ALLOWED_TICK_INTERVAL`, a constant of
`game/ticking.rs` which is not under `src/`. -/
def Game.tick (g : Game) (tick_time max_allowed : Nat) : Game × List Effect :=
  let r := g.inner_tick
  (r.1,
   r.2 ++ if max_allowed ≤ tick_time then [Effect.warnSlowTick tick_time max_allowed]
          else [])

/-- Rust `Game::recv` of `src/game/game.rs`. `fresh` stands for the actor
handle minted for `actor_of_args` under a fresh `Uuid`; `tick_time` and
`max_allowed` parameterize the wall-clock measurement of the `Tick` arm. -/
def Game.recv (g : Game) (msg : GameMsg) (fresh : ActorHandle)
    (tick_time max_allowed : Nat) : Game × List Effect :=
  match msg with
  | GameMsg.tickMsg => g.tick tick_time max_allowed
  | GameMsg.renderInfoRequest =>
      (g, [Effect.reply (Reply.renderInfo (g.map.tiles.map (fun t => (t.1, t.2.1))))])
  | GameMsg.placeTile coord id noneId =>
      let stopEff : List Effect :=
        match aGet g.map.tiles coord with
        | some (_, h) => [Effect.stopActor h]
        | none => []
      if id = noneId then
        (⟨g.tick_count, ⟨g.map.map_name, aErase g.map.tiles coord⟩⟩, stopEff)
      else
        (⟨g.tick_count, ⟨g.map.map_name, aInsert g.map.tiles coord (id, fresh)⟩⟩,
         stopEff ++ [Effect.spawnActor fresh])
  | GameMsg.getTile coord =>
      (g, [Effect.reply (Reply.tileReply (aGet g.map.tiles coord))])
  | GameMsg.sendMsgToTile coord m =>
      match aGet g.map.tiles coord with
      | some (_, h) => (g, [Effect.tellTile h m])
      | none => (g, [])

end GameM

namespace Persist

/-- Interned identifier handle (`util/id.rs` `Id`, a `string_interner`
symbol; that module is not under `src/`). -/
abbrev PId := Nat

/-- Axial hex coordinate as persisted. Modelled from the spec: `TileCoord`
is a signed integer axial pair (q, r); `game/tile/coord.rs` is not under
`src/`. -/
structure TileCoord where
  q : Int
  r : Int
deriving DecidableEq

/-- Modelled from the spec: `IdRaw`, the un-interned namespace + name string
pair used in the on-disk format (`util/id.rs` is not under `src/`; the spec
gives namespaced string keys such as `"automancy:conveyor"`). The field
`ns` stands for the Rust field `namespace`, a reserved word here. -/
structure IdRaw where
  ns : Str
  name : Str
deriving DecidableEq

/-- Modelled from the spec: `IdRaw::to_string`, re-joining namespace and
name around the `':'` separator. -/
def IdRaw.toStr (r : IdRaw) : Str := r.ns ++ ':' :: r.name

/-- Modelled from the spec: `IdRaw::parse`, splitting a namespaced string at
the first `':'` (identifier strings always contain the separator; a
separator-free string is kept whole as the namespace). -/
def IdRaw.parse (s : Str) : IdRaw :=
  match splitColon s with
  | some (a, b) => ⟨a, b⟩
  | none => ⟨s, []⟩

theorem IdRaw.toStr_parse {s : Str} (h : ':' ∈ s) : (IdRaw.parse s).toStr = s := by
  have hsome := splitColon_isSome h
  rcases hsp : splitColon s with _ | ⟨a, b⟩
  · rw [hsp] at hsome; cases hsome
  · obtain ⟨heq, _⟩ := splitColon_spec hsp
    simp only [IdRaw.parse, hsp, IdRaw.toStr]
    exact heq.symm

/-- Modelled from the spec: the identifier `Interner` (`util/id.rs`, not
under `src/`), mapping namespaced string keys to compact handles. The
handle of a string is its index in `entries`. -/
structure Interner where
  entries : List Str

/-- Modelled from the spec: `Interner::resolve`, the handle-to-string
direction. -/
def Interner.resolve (I : Interner) (i : PId) : Option Str := I.entries.get? i

/-- First index of a string in the interner's entry list. -/
def findIdx : List Str → Str → Option Nat
  | [], _ => none
  | t :: rest, s => if t = s then some 0 else (findIdx rest s).map (· + 1)

/-- Modelled from the spec: `Interner::get`, the string-to-handle direction;
`none` when the string was never interned in the current configuration. -/
def Interner.get (I : Interner) (s : Str) : Option PId := findIdx I.entries s

/-- An interner is well formed when no string is interned twice and every
interned key is a namespaced `"ns:name"` string. -/
def Interner.WF (I : Interner) : Prop :=
  I.entries.Nodup ∧ ∀ s ∈ I.entries, ':' ∈ s

instance (I : Interner) : Decidable I.WF := by
  unfold Interner.WF
  infer_instance

theorem findIdx_of_get? {l : List Str} {i : Nat} {s : Str} (hnd : l.Nodup)
    (h : l.get? i = some s) : findIdx l s = some i := by
  induction l generalizing i with
  | nil => cases h
  | cons t rest ih =>
      obtain ⟨hnotmem, hndrest⟩ := List.nodup_cons.mp hnd
      cases i with
      | zero =>
          simp only [List.get?_cons_zero, Option.some.injEq] at h
          simp [findIdx, h]
      | succ n =>
          simp only [List.get?_cons_succ] at h
          have hmem : s ∈ rest := List.get?_mem h
          have hts : ¬ t = s := fun hts => hnotmem (hts ▸ hmem)
          simp [findIdx, hts, ih hndrest h]

theorem Interner.get_resolve {I : Interner} {i : PId} {s : Str} (hwf : I.WF)
    (h : I.resolve i = some s) : I.get s = some i :=
  findIdx_of_get? hwf.1 h

theorem Interner.resolve_mem {I : Interner} {i : PId} {s : Str}
    (h : I.resolve i = some s) : s ∈ I.entries :=
  List.get?_mem h

/-- A tile's inventory: item handle to count (`game/inventory.rs` is not
under `src/`; the spec gives a mapping from item Identifier to a
non-negative count). -/
abbrev Inventory := List (PId × Nat)

/-- The inventory's on-disk form: item key string to count (spec §6:
`inventory: [(Identifier, count)]`). -/
abbrev InventoryRaw := List (Str × Nat)

/-- Modelled from the spec: `InventoryRaw::from_inventory`, resolving each
item handle back to its string key. -/
def from_inventory (inv : Inventory) (I : Interner) : InventoryRaw :=
  inv.filterMap (fun p => (I.resolve p.1).map (fun s => (s, p.2)))

/-- Modelled from the spec: `InventoryRaw::to_inventory`, re-interning each
item key and silently dropping items unknown to the current configuration. -/
def to_inventory (raw : InventoryRaw) (I : Interner) : Inventory :=
  raw.filterMap (fun p => (I.get p.1).map (fun i => (i, p.2)))

/-- The tile's variant/modifier index (`StateUnit` of `game/tile/entity.rs`,
not under `src/`; spec §6: `variant_index: integer`). -/
abbrev StateUnit := Int

/-- State owned by one tile-entity actor, as read back by `Map::save`'s
`GetTarget` / `GetScript` / `GetData` asks and written by `Map::load`'s
`SetTarget` / `SetScript` / `SetData` messages. -/
structure TileEntity where
  target : Option TileCoord
  script : Option PId
  data : Inventory
deriving DecidableEq

/-- One entry of `Map::tiles`: the `(ActorRef, Id, StateUnit)` triple of
`src/game/map.rs`, the actor reference standing for the entity state it
owns. -/
structure TileRecord where
  entity : TileEntity
  id : PId
  tile_state : StateUnit
deriving DecidableEq

/-- The persisted per-tile record (`struct TileData` of `src/game/map.rs`):
`TileData(IdRaw, StateUnit, InventoryRaw, Option<TileCoord>, Option<IdRaw>)`. -/
structure TileData where
  id : IdRaw
  tile_state : StateUnit
  inv : InventoryRaw
  target : Option TileCoord
  script : Option IdRaw
deriving DecidableEq

/-- The `Map` of `src/game/map.rs`: a name and the coordinate-keyed tile
table (`HashMap` modelled as an association list with unique keys). -/
structure PMap where
  map_name : Str
  tiles : List (TileCoord × TileRecord)
deriving DecidableEq

/-- Rust `Map::new_empty` of `src/game/map.rs`. -/
def PMap.new_empty (map_name : Str) : PMap := ⟨map_name, []⟩

/-- The per-script part of one `Map::save` iteration:
`script.map(|script| IdRaw::parse(interner.resolve(script).unwrap()))`, the
`unwrap` modelled as `Option` failure. -/
def saveScript (I : Interner) : Option PId → Option (Option IdRaw)
  | none => some none
  | some sc => (I.resolve sc).map (fun s => some (IdRaw.parse s))

/-- One iteration of the `Map::save` serialization loop of
`src/game/map.rs`: resolve the tile-type id (`unwrap` on failure), ask the
entity for target / script / inventory, and build the `TileData` record. -/
def saveTile (I : Interner) (p : TileCoord × TileRecord) :
    Option (TileCoord × TileData) :=
  match I.resolve p.2.id with
  | none => none
  | some s =>
      match saveScript I p.2.entity.script with
      | none => none
      | some scr =>
          some (p.1,
            ⟨IdRaw.parse s, p.2.tile_state, from_inventory p.2.entity.data I,
             p.2.entity.target, scr⟩)

/-- The `Map::save` serialization loop over all tiles; `none` models a
panicking `unwrap` on an id unknown to the interner. -/
def saveList (I : Interner) : List (TileCoord × TileRecord) →
    Option (List (TileCoord × TileData))
  | [] => some []
  | p :: rest =>
      match saveTile I p, saveList I rest with
      | some td, some l => some (td :: l)
      | _, _ => none

/-- Rust `Map::save` of `src/game/map.rs`, reduced to the data it writes:
the `Vec<(TileCoord, TileData)>` handed to `serde_json::to_writer`. -/
def PMap.save (m : PMap) (I : Interner) : Option (List (TileCoord × TileData)) :=
  saveList I m.tiles

/-- One iteration of the `Map::load` reconstruction loop of
`src/game/map.rs`: re-intern the stored type id (dropping the record when
unknown), spawn a tile whose entity receives `SetTarget(target)`,
`SetScript` only when the stored script still resolves, and `SetData` of
the re-interned inventory. -/
def loadEntry (I : Interner) (td : TileData) : Option TileRecord :=
  (I.get td.id.toStr).map (fun id =>
    ⟨⟨td.target, td.script.bind (fun s => I.get s.toStr), to_inventory td.inv I⟩,
     id, td.tile_state⟩)

/-- Keyed form of `loadEntry` as used in the `flat_map`. -/
def loadPair (I : Interner) (p : TileCoord × TileData) :
    Option (TileCoord × TileRecord) :=
  (loadEntry I p.2).map (fun r => (p.1, r))

/-- The `collect::<HashMap<_, _>>()` at the end of `Map::load`: left-to-right
insertion, a later record at the same coordinate overwriting an earlier
one. -/
def hmCollect (l : List (TileCoord × TileRecord)) : List (TileCoord × TileRecord) :=
  l.foldl (fun acc p => aInsert acc p.1 p.2) []

/-- The decode-successful body of `Map::load` of `src/game/map.rs`, from the
deserialized `Vec<(TileCoord, TileData)>` to the reconstructed `Map`. -/
def loadRaw (raw : List (TileCoord × TileData)) (I : Interner)
    (map_name : Str) : PMap :=
  ⟨map_name, hmCollect (raw.filterMap (loadPair I))⟩

/-- What the filesystem presents to `Map::load`: no file at the map's path,
a file whose zstd/JSON decoding fails, or a decoded record list. -/
inductive FileResult where
  | missing
  | corrupt
  | ok (raw : List (TileCoord × TileData))

/-- Rust `Map::load` of `src/game/map.rs`: a missing file short-circuits to
`Map::new_empty`; a file that fails decoding hits
`serde_json::from_reader(decoder).unwrap()` — a panic, modelled as `none`;
otherwise the record list is reconstructed by `loadRaw`. -/
def PMap.load (file : FileResult) (I : Interner) (map_name : Str) : Option PMap :=
  match file with
  | FileResult.missing => some (PMap.new_empty map_name)
  | FileResult.corrupt => none
  | FileResult.ok raw => some (loadRaw raw I map_name)

theorem aGet_eq_none_of_not_mem {K V : Type} [DecidableEq K]
    {l : List (K × V)} {k : K} (h : k ∉ l.map Prod.fst) : aGet l k = none := by
  induction l with
  | nil => rfl
  | cons p rest ih =>
      simp only [List.map_cons, List.mem_cons, not_or] at h
      have hne : ¬ p.1 = k := fun hp => h.1 hp.symm
      simp [aGet, hne, ih h.2]

theorem keys_filterMap_loadPair_sublist (I : Interner)
    (raw : List (TileCoord × TileData)) :
    ((raw.filterMap (loadPair I)).map Prod.fst).Sublist (raw.map Prod.fst) := by
  induction raw with
  | nil => simp
  | cons p rest ih =>
      rcases hl : loadPair I p with _ | q
      · simpa [List.filterMap_cons, hl] using ih.cons p.1
      · have hq : q.1 = p.1 := by
          rcases hl' : loadEntry I p.2 with _ | r
          · rw [loadPair, hl'] at hl; cases hl
          · rw [loadPair, hl'] at hl
            cases hl
            rfl
        simpa [List.filterMap_cons, hl, hq] using ih.cons₂ p.1

theorem aGet_foldl_aInsert {K V : Type} [DecidableEq K]
    (l : List (K × V)) (acc : List (K × V)) (k : K)
    (hnd : (l.map Prod.fst).Nodup) :
    aGet (l.foldl (fun a p => aInsert a p.1 p.2) acc) k =
      match aGet l k with
      | some v => some v
      | none => aGet acc k := by
  induction l generalizing acc with
  | nil => simp
  | cons p rest ih =>
      simp only [List.map_cons, List.nodup_cons] at hnd
      rw [List.foldl_cons, ih _ hnd.2]
      by_cases hk : p.1 = k
      · subst hk
        have : aGet rest p.1 = none := aGet_eq_none_of_not_mem hnd.1
        simp [this]
      · rw [aGet_aInsert_ne acc p.1 k p.2 hk]
        simp [aGet, hk]

theorem aGet_hmCollect (l : List (TileCoord × TileRecord)) (c : TileCoord)
    (hnd : (l.map Prod.fst).Nodup) : aGet (hmCollect l) c = aGet l c := by
  rw [hmCollect, aGet_foldl_aInsert l [] c hnd]
  cases aGet l c <;> simp

theorem aGet_filterMap_loadPair (I : Interner)
    (raw : List (TileCoord × TileData)) (c : TileCoord)
    (hnd : (raw.map Prod.fst).Nodup) :
    aGet (raw.filterMap (loadPair I)) c = (aGet raw c).bind (loadEntry I) := by
  induction raw with
  | nil => rfl
  | cons p rest ih =>
      simp only [List.map_cons, List.nodup_cons] at hnd
      by_cases hk : p.1 = c
      · subst hk
        rcases hl : loadEntry I p.2 with _ | r
        · have hnot : p.1 ∉ (rest.filterMap (loadPair I)).map Prod.fst :=
            fun hmem => hnd.1 ((keys_filterMap_loadPair_sublist I rest).mem hmem)
          simp [List.filterMap_cons, loadPair, hl, aGet,
            aGet_eq_none_of_not_mem hnot]
        · simp [List.filterMap_cons, loadPair, hl, aGet]
      · rcases hl : loadEntry I p.2 with _ | r <;>
          simp [List.filterMap_cons, loadPair, hl, aGet, hk, ih hnd.2]

theorem aGet_loadRaw (I : Interner) (raw : List (TileCoord × TileData))
    (map_name : Str) (c : TileCoord) (hnd : (raw.map Prod.fst).Nodup) :
    aGet (loadRaw raw I map_name).tiles c = (aGet raw c).bind (loadEntry I) := by
  have hnd' : ((raw.filterMap (loadPair I)).map Prod.fst).Nodup :=
    (keys_filterMap_loadPair_sublist I raw).nodup hnd
  rw [loadRaw, aGet_hmCollect _ _ hnd', aGet_filterMap_loadPair I raw c hnd]

theorem aGet_of_mem_nodup {K V : Type} [DecidableEq K]
    {l : List (K × V)} {p : K × V} (hmem : p ∈ l)
    (hnd : (l.map Prod.fst).Nodup) : aGet l p.1 = some p.2 := by
  induction l with
  | nil => cases hmem
  | cons q rest ih =>
      simp only [List.map_cons, List.nodup_cons] at hnd
      rcases List.mem_cons.mp hmem with heq | hmem'
      · subst heq; simp [aGet]
      · have hne : ¬ q.1 = p.1 := fun h =>
          hnd.1 (h ▸ List.mem_map_of_mem Prod.fst hmem')
        simp [aGet, hne, ih hmem' hnd.2]

/-- Decidable statement that every identifier a tile record mentions (its
type, its script if any, each inventory item) is interned. -/
def TileRecord.resolvable (I : Interner) (r : TileRecord) : Bool :=
  (I.resolve r.id).isSome &&
  (match r.entity.script with
   | none => true
   | some sc => (I.resolve sc).isSome) &&
  r.entity.data.all (fun p => (I.resolve p.1).isSome)

theorem get_toStr_parse_resolve {I : Interner} {i : PId} {s : Str}
    (hwf : I.WF) (h : I.resolve i = some s) :
    I.get (IdRaw.parse s).toStr = some i := by
  rw [IdRaw.toStr_parse (hwf.2 s (Interner.resolve_mem h))]
  exact Interner.get_resolve hwf h

theorem to_from_inventory {I : Interner} {inv : Inventory} (hwf : I.WF)
    (hall : inv.all (fun p => (I.resolve p.1).isSome) = true) :
    to_inventory (from_inventory inv I) I = inv := by
  induction inv with
  | nil => rfl
  | cons p rest ih =>
      simp only [List.all_cons, Bool.and_eq_true] at hall
      obtain ⟨s, hs⟩ := Option.isSome_iff_exists.mp hall.1
      rw [from_inventory, List.filterMap_cons]
      simp only [hs, Option.map_some']
      rw [show (rest.filterMap fun p => (I.resolve p.1).map fun s => (s, p.2)) =
            from_inventory rest I from rfl]
      rw [to_inventory, List.filterMap_cons]
      simp only [Interner.get_resolve hwf hs, Option.map_some']
      rw [show ((from_inventory rest I).filterMap
            fun p => (I.get p.1).map fun i => (i, p.2)) =
            to_inventory (from_inventory rest I) I from rfl]
      rw [ih hall.2]

theorem saveTile_roundtrip {I : Interner} (hwf : I.WF)
    (p : TileCoord × TileRecord) (hres : TileRecord.resolvable I p.2 = true) :
    ∃ td, saveTile I p = some (p.1, td) ∧ loadEntry I td = some p.2 := by
  obtain ⟨c, ⟨⟨target, script, data⟩, tid, st⟩⟩ := p
  simp only [TileRecord.resolvable, Bool.and_eq_true] at hres
  obtain ⟨⟨hid, hscr⟩, hinv⟩ := hres
  obtain ⟨s, hs⟩ := Option.isSome_iff_exists.mp hid
  rcases script with _ | sc
  · refine ⟨⟨IdRaw.parse s, st, from_inventory data I, target, none⟩, ?_, ?_⟩
    · simp [saveTile, hs, saveScript]
    · simp [loadEntry, get_toStr_parse_resolve hwf hs,
        to_from_inventory hwf hinv]
  · obtain ⟨s', hs'⟩ := Option.isSome_iff_exists.mp hscr
    refine ⟨⟨IdRaw.parse s, st, from_inventory data I, target,
      some (IdRaw.parse s')⟩, ?_, ?_⟩
    · simp [saveTile, hs, saveScript, hs']
    · simp [loadEntry, get_toStr_parse_resolve hwf hs,
        get_toStr_parse_resolve hwf hs', to_from_inventory hwf hinv]

/-- Relation between an in-memory tile entry and its serialized record:
same coordinate, and loading the record back yields the entry. -/
def SavedAs (I : Interner) (p : TileCoord × TileRecord)
    (q : TileCoord × TileData) : Prop :=
  q.1 = p.1 ∧ loadEntry I q.2 = some p.2

theorem saveList_forall₂ {I : Interner} (hwf : I.WF)
    (tiles : List (TileCoord × TileRecord))
    (hres : ∀ p ∈ tiles, TileRecord.resolvable I p.2 = true) :
    ∃ raw, saveList I tiles = some raw ∧ List.Forall₂ (SavedAs I) tiles raw := by
  induction tiles with
  | nil => exact ⟨[], rfl, List.Forall₂.nil⟩
  | cons p rest ih =>
      obtain ⟨td, hsv, hld⟩ :=
        saveTile_roundtrip hwf p (hres p (List.mem_cons_self p rest))
      obtain ⟨raw, hraw, hf⟩ := ih (fun q hq => hres q (List.mem_cons_of_mem p hq))
      exact ⟨(p.1, td) :: raw, by rw [saveList, hsv, hraw],
        List.Forall₂.cons ⟨rfl, hld⟩ hf⟩

theorem forall₂_keys_eq {I : Interner} {tiles : List (TileCoord × TileRecord)}
    {raw : List (TileCoord × TileData)}
    (h : List.Forall₂ (SavedAs I) tiles raw) :
    raw.map Prod.fst = tiles.map Prod.fst := by
  induction h with
  | nil => rfl
  | cons hpq _ ih => simp [hpq.1, ih]

theorem forall₂_aGet_bind {I : Interner} {tiles : List (TileCoord × TileRecord)}
    {raw : List (TileCoord × TileData)}
    (h : List.Forall₂ (SavedAs I) tiles raw) (c : TileCoord) :
    (aGet raw c).bind (loadEntry I) = aGet tiles c := by
  induction h with
  | nil => rfl
  | cons hpq _ ih =>
      rename_i p q _ _ _
      by_cases hc : p.1 = c
      · simp [aGet, hpq.1, hc, hpq.2]
      · simp [aGet, hpq.1, hc, ih]

end Persist

namespace Link

/-- Interned identifier handle of the `src/bin/automancy` variant
(`automancy_defs::id::Id`, not under `src/`). -/
abbrev LId := Nat

/-- Axial hex coordinate. Modelled from the spec: a signed integer axial
pair (q, r); `automancy_defs/src/coord.rs` is not under `src/`. -/
structure TileCoord where
  q : Int
  r : Int
deriving DecidableEq

/-- Tagged data value stored in a `DataMap`. Modelled from the spec (§3
lists the variants; `automancy_resources/src/data.rs` is not under `src/`):
only the variants `on_link_tile` touches are distinguished. -/
inductive Data where
  | boolData (b : Bool)
  | coordData (c : TileCoord)
  | idData (i : LId)
  | amountData (n : Nat)
deriving DecidableEq

/-- Rust `Data::into_bool`: the boolean payload when the variant is `Bool`. -/
def Data.into_bool : Data → Option Bool
  | Data.boolData b => some b
  | _ => none

/-- A tile's typed key-value store. Modelled from the spec: an
insertion-irrelevant mapping from identifier to `Data`, at most one value
per key; mutated only through set/remove messages. -/
abbrev DataMap := List (LId × Data)

/-- A tile-type definition of the resource registry (`struct Tile` of
`automancy_resources/src/types/tile.rs`). -/
structure TileDef where
  model : LId
  function : Option LId
  data : DataMap
deriving DecidableEq

/-- The two registry data keys `on_link_tile` uses
(`resource_man.registry.data_ids.linked` / `.link`). -/
structure DataIds where
  linked : LId
  link : LId
deriving DecidableEq

/-- Rust `on_link_tile` of `src/bin/automancy/event.rs`, reduced to the data
it reads and writes. `tileAt` is the `GetTile(pointing_at)` reply,
`entityData` the pointed-at entity's data map (`GetTileEntity` reply plus
its `GetDataValue` state), `registryTiles` the tile-type registry,
`linking_tile` the coordinate being linked from. The result is the entity's
data map after the sent `RemoveData` / `SetDataValue` message, or `none`
when the function returns early (no tile, no entity, unknown type, or a
type not marked linked-capable) and nothing is changed. -/
def on_link_tile (tileAt : Option LId) (entityData : Option DataMap)
    (registryTiles : List (LId × TileDef)) (data_ids : DataIds)
    (linking_tile : TileCoord) : Option DataMap :=
  match tileAt with
  | none => none
  | some id =>
      match entityData with
      | none => none
      | some dm =>
          match aGet registryTiles id with
          | none => none
          | some tile =>
              if ((aGet tile.data data_ids.linked).bind Data.into_bool).getD false then
                match aGet dm data_ids.link with
                | some _ => some (aErase dm data_ids.link)
                | none =>
                    some (aInsert dm data_ids.link (Data.coordData linking_tile))
              else none

end Link

namespace GameM

/-- Claim C1: for every coordinate `c` and non-none tile type `T`, handling
`PlaceTile(c, T)` and then `GetTile(c)` replies with the fresh tile record
`(T, fresh)` at `c` — so `Some(T)` — the previously occupying actor having
been stopped; handling `PlaceTile(c, NONE)` and then `GetTile(c)` replies
`None` (placing the designated none type is pure removal). -/
theorem C1_place_then_get (g : Game) (c : TileCoord) (T noneId : DataId.Id)
    (fresh fresh' : ActorHandle) (t m t' m' : Nat) :
    (T ≠ noneId →
      (Game.recv (Game.recv g (GameMsg.placeTile c T noneId) fresh t m).1
          (GameMsg.getTile c) fresh' t' m').2 =
        [Effect.reply (Reply.tileReply (some (T, fresh)))]) ∧
    (T = noneId →
      (Game.recv (Game.recv g (GameMsg.placeTile c T noneId) fresh t m).1
          (GameMsg.getTile c) fresh' t' m').2 =
        [Effect.reply (Reply.tileReply none)]) ∧
    (∀ old, aGet g.map.tiles c = some old →
      Effect.stopActor old.2 ∈
        (Game.recv g (GameMsg.placeTile c T noneId) fresh t m).2) := by
  refine ⟨fun hne => ?_, fun heq => ?_, fun old hold => ?_⟩
  · simp [Game.recv, hne, aGet_aInsert_self]
  · simp [Game.recv, heq, aGet_aErase_self]
  · obtain ⟨oi, oh⟩ := old
    by_cases heq : T = noneId <;> simp [Game.recv, heq, hold]

/-- Witness for C1 at a concrete input: placing `"a:b"` over an occupied
origin on a one-tile map, and placing the none id there. -/
theorem C1_place_then_get_witness :
    ((⟨"x".toList, "y".toList⟩ : DataId.Id) ≠ ⟨"automancy".toList, "none".toList⟩ →
      (Game.recv
          (Game.recv ⟨0, ⟨"m".toList, [(⟨0, 0⟩, ⟨"a".toList, "b".toList⟩, 7)]⟩⟩
            (GameMsg.placeTile ⟨0, 0⟩ ⟨"x".toList, "y".toList⟩
              ⟨"automancy".toList, "none".toList⟩) 9 0 0).1
          (GameMsg.getTile ⟨0, 0⟩) 10 0 0).2 =
        [Effect.reply (Reply.tileReply (some (⟨"x".toList, "y".toList⟩, 9)))]) ∧
    ((⟨"x".toList, "y".toList⟩ : DataId.Id) = ⟨"automancy".toList, "none".toList⟩ →
      (Game.recv
          (Game.recv ⟨0, ⟨"m".toList, [(⟨0, 0⟩, ⟨"a".toList, "b".toList⟩, 7)]⟩⟩
            (GameMsg.placeTile ⟨0, 0⟩ ⟨"x".toList, "y".toList⟩
              ⟨"automancy".toList, "none".toList⟩) 9 0 0).1
          (GameMsg.getTile ⟨0, 0⟩) 10 0 0).2 =
        [Effect.reply (Reply.tileReply none)]) ∧
    (∀ old,
      aGet [(⟨0, 0⟩, (⟨"a".toList, "b".toList⟩ : DataId.Id), 7)] (⟨0, 0⟩ : TileCoord) =
        some old →
      Effect.stopActor old.2 ∈
        (Game.recv ⟨0, ⟨"m".toList, [(⟨0, 0⟩, ⟨"a".toList, "b".toList⟩, 7)]⟩⟩
          (GameMsg.placeTile ⟨0, 0⟩ ⟨"x".toList, "y".toList⟩
            ⟨"automancy".toList, "none".toList⟩) 9 0 0).2) :=
  C1_place_then_get ⟨0, ⟨"m".toList, [(⟨0, 0⟩, ⟨"a".toList, "b".toList⟩, 7)]⟩⟩
    ⟨0, 0⟩ ⟨"x".toList, "y".toList⟩ ⟨"automancy".toList, "none".toList⟩ 9 10 0 0 0 0

/-- Claim C5: processing one `Tick` message increases the coordinator's tick
counter by exactly one modulo the 64-bit machine word (wrapping on overflow
rather than erroring), so the counter strictly increases modulo wraparound
across consecutive ticks. -/
theorem C5_tick_count_increments (g : Game) (fresh tick_time max_allowed : Nat) :
    (Game.recv g GameMsg.tickMsg fresh tick_time max_allowed).1.tick_count =
      (g.tick_count + 1) % USIZE_MOD ∧
    (Game.recv g GameMsg.tickMsg fresh tick_time max_allowed).1.tick_count <
      USIZE_MOD := by
  constructor
  · simp [Game.recv, Game.tick, Game.inner_tick]
  · simp only [Game.recv, Game.tick, Game.inner_tick]
    exact Nat.mod_lt _ (by simp [USIZE_MOD])

/-- Claim C6: the slow-tick check is observability-only. The game state
produced by `Game::tick` equals the one produced by `inner_tick` alone, for
every measured duration — so state, tick counter and map are the same
whether or not the warning fired — and exactly one warning effect is
emitted when the measured duration reaches the allowed maximum, none
otherwise. -/
theorem C6_slow_tick_warning_only (g : Game) (tick_time max_allowed : Nat) :
    (Game.tick g tick_time max_allowed).1 = (Game.inner_tick g).1 ∧
    ((Game.tick g tick_time max_allowed).2.countP
        (fun e => match e with
          | Effect.warnSlowTick _ _ => true
          | _ => false)) =
      (if max_allowed ≤ tick_time then 1 else 0) := by
  constructor
  · rfl
  · have hz : (List.map (fun t => Effect.tellTile t.2.2 (TileMsg.tick g.tick_count))
        g.map.tiles).countP
        (fun e => match e with
          | Effect.warnSlowTick _ _ => true
          | _ => false) = 0 := by
      rw [List.countP_eq_zero]
      intro e he
      obtain ⟨p, hmem, hp⟩ := List.mem_map.mp he
      subst hp
      simp
    simp only [Game.tick, Game.inner_tick, List.countP_append, hz]
    by_cases h : max_allowed ≤ tick_time <;> simp [h]

/-- Claim C7 (amended): `GetTile` on an empty coordinate replies `None` to
the asker; `SendMsgToTile` on an empty coordinate is a silent no-op — the
message is dropped, the state unchanged, and no reply of any kind is sent
to the asker. -/
theorem C7_absent_tile_queries (g : Game) (c : TileCoord) (msg : TileMsg)
    (fresh t m fresh' t' m' : Nat) (h : aGet g.map.tiles c = none) :
    (Game.recv g (GameMsg.getTile c) fresh t m).2 =
      [Effect.reply (Reply.tileReply none)] ∧
    Game.recv g (GameMsg.sendMsgToTile c msg) fresh' t' m' = (g, []) := by
  constructor
  · simp [Game.recv, h]
  · simp [Game.recv, h]

/-- Witness for C7 at a concrete input: the empty map. -/
theorem C7_absent_tile_queries_witness :
    (Game.recv ⟨0, ⟨"m".toList, []⟩⟩ (GameMsg.getTile ⟨1, 2⟩) 0 0 0).2 =
      [Effect.reply (Reply.tileReply none)] ∧
    Game.recv ⟨0, ⟨"m".toList, []⟩⟩ (GameMsg.sendMsgToTile ⟨1, 2⟩ (TileMsg.other 0))
        0 0 0 =
      (⟨0, ⟨"m".toList, []⟩⟩, []) :=
  C7_absent_tile_queries ⟨0, ⟨"m".toList, []⟩⟩ ⟨1, 2⟩ (TileMsg.other 0) 0 0 0 0 0 0
    (by decide)

/-- Claim C7, counterexample to the statement as written: handling
`SendMsgToTile` addressed to an empty coordinate produces no effect at all —
in particular no "tile absent" reply is sent back to the asker, the request
is simply left unanswered. -/
theorem C7_counterexample :
    ((Game.recv ⟨0, ⟨"m".toList, []⟩⟩
        (GameMsg.sendMsgToTile ⟨1, 2⟩ (TileMsg.other 0)) 0 0 0).2.any
      (fun e => match e with
        | Effect.reply _ => true
        | _ => false)) = false := by
  decide

/-- Claim C10: handling `PlaceTile{coord, id}` modifies at most the map
entry at `coord`: every other coordinate's record, the map's name and the
tick counter are unchanged, whether the message results in a placement, a
replacement or a removal. -/
theorem C10_place_frame (g : Game) (coord : TileCoord) (T noneId : DataId.Id)
    (fresh t m : Nat) (c' : TileCoord) (h : c' ≠ coord) :
    aGet (Game.recv g (GameMsg.placeTile coord T noneId) fresh t m).1.map.tiles c' =
      aGet g.map.tiles c' ∧
    (Game.recv g (GameMsg.placeTile coord T noneId) fresh t m).1.map.map_name =
      g.map.map_name ∧
    (Game.recv g (GameMsg.placeTile coord T noneId) fresh t m).1.tick_count =
      g.tick_count := by
  by_cases heq : T = noneId
  · exact ⟨by simp [Game.recv, heq, aGet_aErase_ne g.map.tiles coord c' h.symm],
      by simp [Game.recv, heq], by simp [Game.recv, heq]⟩
  · exact ⟨by simp [Game.recv, heq, aGet_aInsert_ne g.map.tiles coord c' _ h.symm],
      by simp [Game.recv, heq], by simp [Game.recv, heq]⟩

/-- Witness for C10 at a concrete input: placing at the origin leaves the
record at (1, 0), the map name and the tick counter unchanged. -/
theorem C10_place_frame_witness :
    aGet (Game.recv ⟨3, ⟨"m".toList, [(⟨1, 0⟩, ⟨"a".toList, "b".toList⟩, 7)]⟩⟩
        (GameMsg.placeTile ⟨0, 0⟩ ⟨"x".toList, "y".toList⟩
          ⟨"automancy".toList, "none".toList⟩) 9 0 0).1.map.tiles ⟨1, 0⟩ =
      aGet [(⟨1, 0⟩, (⟨"a".toList, "b".toList⟩ : DataId.Id), 7)] (⟨1, 0⟩ : TileCoord) ∧
    (Game.recv ⟨3, ⟨"m".toList, [(⟨1, 0⟩, ⟨"a".toList, "b".toList⟩, 7)]⟩⟩
        (GameMsg.placeTile ⟨0, 0⟩ ⟨"x".toList, "y".toList⟩
          ⟨"automancy".toList, "none".toList⟩) 9 0 0).1.map.map_name = "m".toList ∧
    (Game.recv ⟨3, ⟨"m".toList, [(⟨1, 0⟩, ⟨"a".toList, "b".toList⟩, 7)]⟩⟩
        (GameMsg.placeTile ⟨0, 0⟩ ⟨"x".toList, "y".toList⟩
          ⟨"automancy".toList, "none".toList⟩) 9 0 0).1.tick_count = 3 :=
  C10_place_frame ⟨3, ⟨"m".toList, [(⟨1, 0⟩, ⟨"a".toList, "b".toList⟩, 7)]⟩⟩
    ⟨0, 0⟩ ⟨"x".toList, "y".toList⟩ ⟨"automancy".toList, "none".toList⟩ 9 0 0
    ⟨1, 0⟩ (by decide)

end GameM

namespace Persist

/-- Claim C2: saving a map and loading it back under the same configuration
yields a map with the same name whose tile table — type id, variant state,
inventory, target and script per coordinate — is identical to the
pre-save one; and decoding-successful loads are total for every interner,
so tiles of now-unknown types never crash the load. -/
theorem C2_save_load_roundtrip (m : PMap) (I : Interner) (hwf : I.WF)
    (hnd : (m.tiles.map Prod.fst).Nodup)
    (hres : ∀ p ∈ m.tiles, TileRecord.resolvable I p.2 = true) :
    (m.save I).isSome ∧
    (∀ raw, m.save I = some raw →
      (loadRaw raw I m.map_name).map_name = m.map_name ∧
      ∀ c, aGet (loadRaw raw I m.map_name).tiles c = aGet m.tiles c) ∧
    (∀ (I2 : Interner) (raw2 : List (TileCoord × TileData)) (nm : Str),
      (PMap.load (FileResult.ok raw2) I2 nm).isSome) := by
  obtain ⟨raw0, hsv, hf⟩ := saveList_forall₂ hwf m.tiles hres
  refine ⟨?_, ?_, fun _ _ _ => rfl⟩
  · rw [PMap.save, hsv]; rfl
  · intro raw hraw
    rw [PMap.save, hsv, Option.some.injEq] at hraw
    subst hraw
    refine ⟨rfl, fun c => ?_⟩
    have hndraw : (raw0.map Prod.fst).Nodup := (forall₂_keys_eq hf) ▸ hnd
    rw [aGet_loadRaw I raw0 m.map_name c hndraw, forall₂_aGet_bind hf c]

/-- Witness for C2 at a concrete input: a one-tile map (type `"a:b"`, script
`"c:d"`, one inventory item `"e:f"`) under the interner holding those three
keys. -/
theorem C2_save_load_roundtrip_witness :
    ((⟨"m".toList,
        [(⟨0, 0⟩, ⟨⟨some ⟨1, 0⟩, some 1, [(2, 5)]⟩, 0, 3⟩)]⟩ : PMap).save
      ⟨["a:b".toList, "c:d".toList, "e:f".toList]⟩).isSome ∧
    (∀ raw,
      (⟨"m".toList,
          [(⟨0, 0⟩, ⟨⟨some ⟨1, 0⟩, some 1, [(2, 5)]⟩, 0, 3⟩)]⟩ : PMap).save
        ⟨["a:b".toList, "c:d".toList, "e:f".toList]⟩ = some raw →
      (loadRaw raw ⟨["a:b".toList, "c:d".toList, "e:f".toList]⟩ "m".toList).map_name =
        "m".toList ∧
      ∀ c,
        aGet (loadRaw raw ⟨["a:b".toList, "c:d".toList, "e:f".toList]⟩
            "m".toList).tiles c =
          aGet [(⟨0, 0⟩, (⟨⟨some ⟨1, 0⟩, some 1, [(2, 5)]⟩, 0, 3⟩ : TileRecord))] c) ∧
    (∀ (I2 : Interner) (raw2 : List (TileCoord × TileData)) (nm : Str),
      (PMap.load (FileResult.ok raw2) I2 nm).isSome) :=
  C2_save_load_roundtrip
    ⟨"m".toList, [(⟨0, 0⟩, ⟨⟨some ⟨1, 0⟩, some 1, [(2, 5)]⟩, 0, 3⟩)]⟩
    ⟨["a:b".toList, "c:d".toList, "e:f".toList]⟩
    (by decide) (by decide) (by decide)

/-- Claim C3 (amended): `Map::load` on a missing save file returns the empty
map of the requested name; on a corrupt/undecodable save file it panics on
the decoder `unwrap` instead of recovering, modelled as `none`. -/
theorem C3_load_missing_or_corrupt (I : Interner) (map_name : Str) :
    PMap.load FileResult.missing I map_name = some (PMap.new_empty map_name) ∧
    PMap.load FileResult.corrupt I map_name = none :=
  ⟨rfl, rfl⟩

/-- Claim C3, counterexample to the statement as written: on a corrupt save
file `Map::load` does not return an empty map — the decode `unwrap` panics
(modelled as `none`). -/
theorem C3_counterexample :
    PMap.load FileResult.corrupt ⟨[]⟩ "m".toList ≠
      some (PMap.new_empty "m".toList) := by
  decide

/-- Claim C4 (amended): for every decodable record list whose coordinates
are distinct — as every list produced by `Map::save` is — loading keeps a
record exactly when its stored type identifier still resolves in the
interner: a resolvable record's coordinate maps to its re-interned image,
an unresolvable record is silently dropped (its coordinate is absent),
without error. When several records share a coordinate, only the last
resolvable one survives the `HashMap` collect. -/
theorem C4_load_keeps_resolvable (raw : List (TileCoord × TileData))
    (I : Interner) (nm : Str) (hnd : (raw.map Prod.fst).Nodup) :
    ∀ p ∈ raw, aGet (loadRaw raw I nm).tiles p.1 = loadEntry I p.2 := by
  intro p hp
  rw [aGet_loadRaw I raw nm p.1 hnd, aGet_of_mem_nodup hp hnd]
  rfl

/-- Witness for C4 at a concrete input: a two-record file, one record of a
type interned at index 0, one of an unknown type; the first is kept, the
second dropped. -/
theorem C4_load_keeps_resolvable_witness :
    ((([(⟨0, 0⟩, (⟨⟨"a".toList, "b".toList⟩, 1, [], none, none⟩ : TileData)),
        (⟨1, 0⟩, (⟨⟨"u".toList, "v".toList⟩, 2, [], none, none⟩ : TileData))] :
          List (TileCoord × TileData)).map Prod.fst).Nodup) ∧
    (∀ p ∈ ([(⟨0, 0⟩, (⟨⟨"a".toList, "b".toList⟩, 1, [], none, none⟩ : TileData)),
        (⟨1, 0⟩, (⟨⟨"u".toList, "v".toList⟩, 2, [], none, none⟩ : TileData))] :
          List (TileCoord × TileData)),
      aGet (loadRaw
          [(⟨0, 0⟩, ⟨⟨"a".toList, "b".toList⟩, 1, [], none, none⟩),
           (⟨1, 0⟩, ⟨⟨"u".toList, "v".toList⟩, 2, [], none, none⟩)]
          ⟨["a:b".toList]⟩ "m".toList).tiles p.1 =
        loadEntry ⟨["a:b".toList]⟩ p.2) :=
  ⟨by decide,
   C4_load_keeps_resolvable
     [(⟨0, 0⟩, ⟨⟨"a".toList, "b".toList⟩, 1, [], none, none⟩),
      (⟨1, 0⟩, ⟨⟨"u".toList, "v".toList⟩, 2, [], none, none⟩)]
     ⟨["a:b".toList]⟩ "m".toList (by decide)⟩

/-- Claim C4, counterexample to the statement as written: a decodable record
list may bind one coordinate twice; then a record whose type identifier
does resolve is nonetheless omitted from the result (the later record
overwrites it in the `HashMap` collect), so "all other records are kept"
fails. -/
theorem C4_counterexample :
    ¬ (∀ p ∈ ([(⟨0, 0⟩, (⟨⟨"a".toList, "b".toList⟩, 1, [], none, none⟩ : TileData)),
          (⟨0, 0⟩, (⟨⟨"a".toList, "b".toList⟩, 2, [], none, none⟩ : TileData))] :
            List (TileCoord × TileData)),
        ((⟨["a:b".toList]⟩ : Interner).get p.2.id.toStr).isSome →
        aGet (loadRaw
            [(⟨0, 0⟩, ⟨⟨"a".toList, "b".toList⟩, 1, [], none, none⟩),
             (⟨0, 0⟩, ⟨⟨"a".toList, "b".toList⟩, 2, [], none, none⟩)]
            ⟨["a:b".toList]⟩ "m".toList).tiles p.1 =
          loadEntry ⟨["a:b".toList]⟩ p.2) := by
  decide

end Persist

namespace DataId

/-- Claim C9: every `Id` that construction lets through — via `new`,
`from_str`, or the `none` / `automancy` helpers — has no `':'` separator in
its namespace or name component, and construction from input carrying the
separator in either component is rejected (the asserts panic, modelled as
`none`); `from_str` also rejects input with no separator at all. -/
theorem C9_id_separator_invariant :
    (∀ ns name id, Id.new ns name = some id → ':' ∉ id.ns ∧ ':' ∉ id.name) ∧
    (∀ s id, Id.from_str s = some id → ':' ∉ id.ns ∧ ':' ∉ id.name) ∧
    (∀ id, Id.noneId = some id → ':' ∉ id.ns ∧ ':' ∉ id.name) ∧
    (∀ name id, Id.automancy name = some id → ':' ∉ id.ns ∧ ':' ∉ id.name) ∧
    (∀ ns name, ':' ∈ ns ∨ ':' ∈ name → Id.new ns name = none) ∧
    (∀ s a b, splitColon s = some (a, b) → ':' ∈ b → Id.from_str s = none) ∧
    (∀ s, ':' ∉ s → Id.from_str s = none) := by
  have hnew : ∀ ns name id, Id.new ns name = some id →
      ':' ∉ id.ns ∧ ':' ∉ id.name := by
    intro ns name id h
    rw [Id.new] at h
    by_cases h1 : ':' ∈ ns
    · rw [if_pos h1] at h; cases h
    · rw [if_neg h1] at h
      by_cases h2 : ':' ∈ name
      · rw [if_pos h2] at h; cases h
      · rw [if_neg h2, Option.some.injEq] at h
        subst h
        exact ⟨h1, h2⟩
  refine ⟨hnew, ?_, ?_, ?_, ?_, ?_, ?_⟩
  · intro s id h
    rcases hsp : splitColon s with _ | ⟨a, b⟩
    · rw [Id.from_str, hsp] at h; cases h
    · simp only [Id.from_str, hsp] at h
      by_cases h1 : ':' ∈ a
      · rw [if_pos h1] at h; cases h
      · rw [if_neg h1] at h
        by_cases h2 : ':' ∈ b
        · rw [if_pos h2] at h; cases h
        · rw [if_neg h2, Option.some.injEq] at h
          subst h
          exact ⟨h1, h2⟩
  · intro id h
    exact hnew _ _ _ h
  · intro name id h
    exact hnew _ _ _ h
  · intro ns name h
    rcases h with h1 | h2
    · rw [Id.new, if_pos h1]
    · rw [Id.new]
      by_cases h1 : ':' ∈ ns
      · rw [if_pos h1]
      · rw [if_neg h1, if_pos h2]
  · intro s a b hsp hb
    simp only [Id.from_str, hsp]
    by_cases h1 : ':' ∈ a
    · rw [if_pos h1]
    · rw [if_neg h1, if_pos hb]
  · intro s hs
    rw [Id.from_str, splitColon_eq_none hs]

/-- Witness for C9 at concrete inputs: `"automancy:conveyor"` is accepted
with separator-free components; `"a:b:c"` (separator in the name component)
and `"abc"` (no separator) are rejected; `new` rejects a namespace carrying
the separator. -/
theorem C9_id_separator_invariant_witness :
    (Id.new "automancy".toList "conveyor".toList =
        some ⟨"automancy".toList, "conveyor".toList⟩ →
      ':' ∉ (⟨"automancy".toList, "conveyor".toList⟩ : Id).ns ∧
      ':' ∉ (⟨"automancy".toList, "conveyor".toList⟩ : Id).name) ∧
    (':' ∈ "a:b".toList ∨ ':' ∈ "c".toList →
      Id.new "a:b".toList "c".toList = none) ∧
    (splitColon "a:b:c".toList = some ("a".toList, "b:c".toList) →
      ':' ∈ "b:c".toList → Id.from_str "a:b:c".toList = none) ∧
    (':' ∉ "abc".toList → Id.from_str "abc".toList = none) :=
  ⟨fun h => C9_id_separator_invariant.1 "automancy".toList "conveyor".toList _ h,
   fun h => C9_id_separator_invariant.2.2.2.2.1 "a:b".toList "c".toList h,
   fun hsp hb => C9_id_separator_invariant.2.2.2.2.2.1 "a:b:c".toList
     "a".toList "b:c".toList hsp hb,
   fun hs => C9_id_separator_invariant.2.2.2.2.2.2 "abc".toList hs⟩

end DataId

namespace Link

/-- Claim C8: for a linkable tile (its type's data marks it linked-capable),
a link request when the tile has no link value sets its link to the
requesting coordinate, and a second identical link request clears the link
instead of creating a duplicate — the entity's data map is restored to the
unlinked state key for key (toggle). -/
theorem C8_link_toggle (id : LId) (dm : DataMap)
    (registryTiles : List (LId × TileDef)) (data_ids : DataIds)
    (linking_tile : TileCoord) (tile : TileDef)
    (hreg : aGet registryTiles id = some tile)
    (hlinked : ((aGet tile.data data_ids.linked).bind Data.into_bool).getD false =
      true)
    (hnolink : aGet dm data_ids.link = none) :
    ∃ dm1, on_link_tile (some id) (some dm) registryTiles data_ids linking_tile =
        some dm1 ∧
      aGet dm1 data_ids.link = some (Data.coordData linking_tile) ∧
      ∃ dm2, on_link_tile (some id) (some dm1) registryTiles data_ids linking_tile =
          some dm2 ∧
        ∀ k, aGet dm2 k = aGet dm k := by
  refine ⟨aInsert dm data_ids.link (Data.coordData linking_tile), ?_,
    aGet_aInsert_self _ _ _, ?_⟩
  · simp [on_link_tile, hreg, hlinked, hnolink]
  · refine ⟨aErase (aInsert dm data_ids.link (Data.coordData linking_tile))
      data_ids.link, ?_, ?_⟩
    · simp [on_link_tile, hreg, hlinked, aGet_aInsert_self]
    · intro k
      by_cases hk : data_ids.link = k
      · subst hk
        rw [aGet_aErase_self, hnolink]
      · rw [aGet_aErase_ne _ _ _ hk, aGet_aInsert_ne _ _ _ _ hk]

/-- Witness for C8 at a concrete input: one linked-capable tile type
(id 0, `linked = true` under key 1), an entity with an empty data map, and
link key 2. -/
theorem C8_link_toggle_witness :
    aGet [(0, (⟨5, none, [(1, Data.boolData true)]⟩ : TileDef))] 0 =
      some (⟨5, none, [(1, Data.boolData true)]⟩ : TileDef) ∧
    ((aGet (⟨5, none, [(1, Data.boolData true)]⟩ : TileDef).data 1).bind
        Data.into_bool).getD false = true ∧
    aGet ([] : DataMap) 2 = none ∧
    ∃ dm1, on_link_tile (some 0) (some [])
        [(0, ⟨5, none, [(1, Data.boolData true)]⟩)] ⟨1, 2⟩ ⟨4, 5⟩ = some dm1 ∧
      aGet dm1 2 = some (Data.coordData ⟨4, 5⟩) ∧
      ∃ dm2, on_link_tile (some 0) (some dm1)
          [(0, ⟨5, none, [(1, Data.boolData true)]⟩)] ⟨1, 2⟩ ⟨4, 5⟩ = some dm2 ∧
        ∀ k, aGet dm2 k = aGet ([] : DataMap) k :=
  ⟨by decide, by decide, by decide,
   C8_link_toggle 0 [] [(0, ⟨5, none, [(1, Data.boolData true)]⟩)] ⟨1, 2⟩ ⟨4, 5⟩
     ⟨5, none, [(1, Data.boolData true)]⟩ (by decide) (by decide) (by decide)⟩

end Link

end Automancy
